import Mathlib

/-!
Verification development for the codeblur obfuscation engine
(src/codeblur/codeblur.py, class CodeBlur).

Text is modelled as `List Char` (the texts handled by the program are
ordinary code snippets; ASCII character classes are used exactly where the
Python code uses the ASCII regex classes `[A-Z]`, `[a-z]`, `\d`, `\w`).
The mapping table (`self.mappings`, a JSON-persisted Python dict from
original string to placeholder string) is modelled as an insertion-ordered
association list, which is exactly the iteration/insertion behaviour of a
Python dict.  `random.choice` is modelled by an explicit stream of choices
(a function `Nat → Nat` indexed by a counter): every run of the program
corresponds to some stream.
-/

set_option maxRecDepth 10000

/-- Texts and words: Python `str` as a list of characters. -/
abbrev Str := List Char

/-- Literal helper: a Lean string literal viewed as a `Str`. -/
def lit (s : String) : Str := s.data

/-- The mapping table `self.mappings`: insertion-ordered original → placeholder
pairs (Python dict of str to str). -/
abbrev Mappings := List (Str × Str)

/-- Python `original_word in self.mappings` / `self.mappings[original_word]`:
lookup by key in insertion order. -/
def lookupM (m : Mappings) (k : Str) : Option Str :=
  (m.find? (fun e => e.1 == k)).map (fun e => e.2)

/-- Python `self.mappings.values()` in iteration order. -/
def valuesM (m : Mappings) : List Str := m.map (fun e => e.2)

/-!
`str.replace` (used by `deobfuscate_and_show` lines 1592-1594,
`clear_mappings` lines 1680-1682 and `deobfuscate_word` line 1565):
a single left-to-right pass; at each position, if the pattern starts there
it is replaced and scanning continues after the replaced occurrence
(the inserted replacement is never rescanned), otherwise the character is
copied.  `replA` is the pass with explicit fuel (the fuel is only a
termination device: one unit is spent per step and every step strictly
shortens the text, so `fuel = text.length` always suffices; this is proved
by the fuel-irrelevance lemma below).
-/

/-- One replacement pass of `str.replace` over the text (fuel, text). -/
def replA (pat rep : Str) : Nat → Str → Str
  | _, [] => []
  | 0, s => s
  | Nat.succ f, c :: rest =>
    if pat.isPrefixOf (c :: rest) && !pat.isEmpty then
      rep ++ replA pat rep f ((c :: rest).drop pat.length)
    else
      c :: replA pat rep f rest

/-- Python `s.replace(pat, rep)`.  For an empty pattern Python inserts the
replacement before every character and at the end; for a nonempty pattern it
is the single left-to-right pass `replA`. -/
def replaceAll (s pat rep : Str) : Str :=
  if pat.isEmpty then rep ++ s.foldr (fun c acc => c :: (rep ++ acc)) []
  else replA pat rep s.length s

/-- Python `pat in s` (substring test), used for occurrence reasoning. -/
def hasSubstr : Str → Str → Bool
  | s, pat =>
    pat.isPrefixOf s ||
      match s with
      | [] => false
      | _ :: t => hasSubstr t pat

/-- Full deobfuscation (`deobfuscate_and_show` lines 1592-1594 and the
identical loop in `clear_mappings` lines 1680-1682): for every mapping entry
`(original, obfuscated)` in table order, replace every occurrence of the
placeholder `obfuscated` by `original`. -/
def reverseAll (ms : Mappings) (t : Str) : Str :=
  ms.foldl (fun acc e => replaceAll acc e.2 e.1) t

/-!
Character classes.  The Python code uses the ASCII regex classes `[A-Z]`,
`[a-z]`, `\d` and `\w` (identifier patterns `[a-zA-Z_][a-zA-Z0-9_]*`); the
texts involved are source code, so the ASCII classifiers of `Char` are the
faithful model.
-/

/-- Regex `\w`: `[a-zA-Z0-9_]`. -/
def isWordCh (c : Char) : Bool := c.isAlphanum || c == '_'

/-!
`split_camel_case` (lines 669-674): `re.findall(r'[A-Z]?[a-z]+|[A-Z]+(?=[A-Z][a-z]|\d|\W|$)|\d+', word)`.
`re.findall` scans left to right; at each position it tries the three
alternatives in order; `[A-Z]+` is greedy and backtracks one character at a
time until the lookahead `(?=[A-Z][a-z]|\d|\W|$)` holds.  Positions where no
alternative matches are skipped.
-/

/-- Alternative 1, `[A-Z]?[a-z]+`: optional uppercase then a maximal
nonempty lowercase run (if the optional uppercase is taken but no lowercase
follows, the regex backtracks to the empty option, where `[a-z]+` fails on
the uppercase character, so the whole alternative fails). -/
def matchAlt1 : Str → Option (Str × Str)
  | [] => none
  | c :: rest =>
    if c.isUpper then
      let low := rest.takeWhile Char.isLower
      if low.isEmpty then none
      else some (c :: low, rest.dropWhile Char.isLower)
    else if c.isLower then
      some ((c :: rest).takeWhile Char.isLower, (c :: rest).dropWhile Char.isLower)
    else none

/-- The lookahead `(?=[A-Z][a-z]|\d|\W|$)` applied to the rest of the text. -/
def lookaheadOk : Str → Bool
  | [] => true
  | [a] => a.isDigit || !isWordCh a
  | a :: b :: _ => (a.isUpper && b.isLower) || a.isDigit || !isWordCh a

/-- Greedy backtracking for `[A-Z]+(?=...)`: try run lengths from the
maximal uppercase run length down to 1. -/
def alt2Search (s : Str) : Nat → Option (Str × Str)
  | 0 => none
  | Nat.succ k =>
    if lookaheadOk (s.drop (k + 1)) then some (s.take (k + 1), s.drop (k + 1))
    else alt2Search s k

/-- Alternative 2, `[A-Z]+(?=[A-Z][a-z]|\d|\W|$)`. -/
def matchAlt2 (s : Str) : Option (Str × Str) :=
  let u := s.takeWhile Char.isUpper
  if u.isEmpty then none else alt2Search s u.length

/-- Alternative 3, `\d+`: a maximal digit run. -/
def matchAlt3 : Str → Option (Str × Str)
  | [] => none
  | c :: rest =>
    if c.isDigit then
      some ((c :: rest).takeWhile Char.isDigit, (c :: rest).dropWhile Char.isDigit)
    else none

/-- One `findall` step: the three alternatives in order. -/
def tryTok (s : Str) : Option (Str × Str) :=
  (matchAlt1 s).orElse (fun _ => (matchAlt2 s).orElse (fun _ => matchAlt3 s))

/-- The `findall` scan (fuel, text).  Every step either consumes a nonempty
token or skips one character, so `fuel = text.length` suffices. -/
def camelTokensF : Nat → Str → List Str
  | 0, _ => []
  | _ + 1, [] => []
  | Nat.succ f, c :: rest =>
    match tryTok (c :: rest) with
    | some (tok, rest') => tok :: camelTokensF f rest'
    | none => camelTokensF f rest

/-- `split_camel_case(word)` (lines 669-674): the fragments of the regex
scan, or `[word]` if there are none. -/
def split_camel_case (w : Str) : List Str :=
  let parts := camelTokensF w.length w
  if parts.isEmpty then [w] else parts

/-- The generic categories of `generate_ai_identifier` (line 213), in source
order. -/
def genericCategories : List Str :=
  [lit "PERSON", lit "ENTITY", lit "ORG", lit "ITEM", lit "NAME", lit "ID", lit "REF"]

/-- All placeholder categories recognised by `is_obfuscated_identifier`
(line 680), in source order. -/
def allCategories : List Str :=
  [lit "PERSON", lit "ENTITY", lit "ORG", lit "ITEM", lit "NAME", lit "ID", lit "REF",
   lit "GUID", lit "COMMENT", lit "BODY", lit "PATH"]

/-- `random.choice(categories)` modelled by an index into the list (every
choice the interpreter can make corresponds to some index). -/
def pickCategory (i : Nat) : Str :=
  genericCategories.getD (i % genericCategories.length) []

/-- `is_obfuscated_identifier(word)` (lines 676-682):
`re.match(r'^(PERSON|ENTITY|ORG|ITEM|NAME|ID|REF|GUID|COMMENT|BODY|PATH)\d+$', word)`.
No category is a prefix of another, so the anchored alternation is the same
as: some category is a prefix and the remainder is a nonempty digit run. -/
def is_obfuscated_identifier (w : Str) : Bool :=
  allCategories.any (fun cat =>
    cat.isPrefixOf w && !(w.drop cat.length).isEmpty && (w.drop cat.length).all Char.isDigit)

/-- The decimal digit character for `d < 10`. -/
def digCh (d : Nat) : Char := Char.ofNat (48 + d)

/-- Decimal digits of `n`, least significant first (fuel, n); `fuel = n`
suffices for `n ≥ 1` since the number of digits never exceeds `n`. -/
def digitsRevF : Nat → Nat → List Nat
  | 0, _ => []
  | Nat.succ f, n => if n = 0 then [] else n % 10 :: digitsRevF f (n / 10)

/-- The decimal representation of `n` as characters (Python `"%d" % n`). -/
def natDigits (n : Nat) : Str :=
  if n = 0 then [digCh 0] else ((digitsRevF n n).map digCh).reverse

/-- Python `f"{n:03d}"`: the decimal representation left-padded with zeros
to at least 3 characters. -/
def pad3 (n : Nat) : Str :=
  List.replicate (3 - (natDigits n).length) (digCh 0) ++ natDigits n

/-- Python `int(s)` on a digit string. -/
def digitsToNat (s : Str) : Nat :=
  s.foldl (fun a c => a * 10 + (c.toNat - 48)) 0

/-- The per-value scan of `generate_ai_identifier` (lines 218-226): a mapped
value contributes its numeric suffix when it starts with the category name,
is longer than it, and the remainder is all digits. -/
def catSuffixNum (cat : Str) (v : Str) : Option Nat :=
  if cat.isPrefixOf v && decide (cat.length < v.length) then
    if (v.drop cat.length).all Char.isDigit then some (digitsToNat (v.drop cat.length))
    else none
  else none

/-- The mutable state read and written by the identifier machinery:
`self.mappings`, the merged vocabulary `self.known_words`, and the stream of
`random.choice` outcomes (`rand` with counter `randK`). -/
structure GenState where
  mappings : Mappings
  knownWords : List Str
  rand : Nat → Nat
  randK : Nat

/-- `generate_ai_identifier(original_word)` (lines 206-231): return the
existing placeholder if the word is mapped; otherwise pick a random generic
category, find the next available number for it (max of the parsed suffixes
plus one, or 1 if none) and format it zero-padded to 3 digits.  The function
itself does not store the new entry; its callers do. -/
def generate_ai_identifier (st : GenState) (w : Str) : Str × GenState :=
  match lookupM st.mappings w with
  | some v => (v, st)
  | none =>
    let cat := pickCategory (st.rand st.randK)
    let nums := (valuesM st.mappings).filterMap (catSuffixNum cat)
    let nextNum := nums.foldl Nat.max 0 + 1
    (cat ++ pad3 nextNum, { st with randK := st.randK + 1 })

/-- The registration pattern used at every call site of
`generate_ai_identifier` (e.g. lines 703-706, 718-721): if the word has no
entry, generate a placeholder and store the new entry; return the word's
placeholder. -/
def registerWord (st : GenState) (w : Str) : Str × GenState :=
  match lookupM st.mappings w with
  | some v => (v, st)
  | none =>
    let r := generate_ai_identifier st w
    (r.1, { r.2 with mappings := r.2.mappings ++ [(w, r.1)] })

/-- Python `''.join(parts)`. -/
def joinParts (ps : List Str) : Str := ps.foldl (fun a p => a ++ p) []

/-- The known-word test used by `auto_obfuscate_word` (lines 695 and 740):
`word in known_words or word.lower() in {w.lower() for w in known_words}`. -/
def isKnownWord (known : List Str) (w : Str) : Bool :=
  known.contains w ||
    (known.map (fun x => x.map Char.toLower)).contains (w.map Char.toLower)

/-- The flush of an accumulated unknown-fragment run (lines 716-722, 729-735,
744-750, 756-761): join the run, register it, append its placeholder. -/
def flushUnknown (st : GenState) (seq : List Str) (acc : List Str) : GenState × List Str :=
  if seq.isEmpty then (st, acc)
  else
    let r := registerWord st (joinParts seq)
    (r.2, acc ++ [r.1])

/-- The fragment loop of `auto_obfuscate_word` (lines 709-761): walk the
fragments; placeholder-shaped, pure-digit and known fragments flush the
accumulated unknown run and are kept literally; unknown fragments
accumulate; a trailing run is flushed at the end. -/
def aowLoop : GenState → List Str → List Str → List Str → GenState × List Str
  | st, [], seq, acc => flushUnknown st seq acc
  | st, p :: ps, seq, acc =>
    if is_obfuscated_identifier p then
      let r := flushUnknown st seq acc
      aowLoop r.1 ps [] (r.2 ++ [p])
    else if !p.isEmpty && p.all Char.isDigit then
      let r := flushUnknown st seq acc
      aowLoop r.1 ps [] (r.2 ++ [p])
    else if isKnownWord st.knownWords p then
      let r := flushUnknown st seq acc
      aowLoop r.1 ps [] (r.2 ++ [p])
    else
      aowLoop st ps (seq ++ [p]) acc

/-- `auto_obfuscate_word(word)` (lines 684-763). -/
def auto_obfuscate_word (st : GenState) (w : Str) : Str × GenState :=
  if is_obfuscated_identifier w then (w, st)
  else if (valuesM st.mappings).contains w then (w, st)
  else if isKnownWord st.knownWords w then (w, st)
  else
    let parts := split_camel_case w
    if parts.length ≤ 1 then registerWord st w
    else
      let r := aowLoop st parts [] []
      (joinParts r.2, r.1)

/-- `re.sub(r'\b[a-zA-Z_][a-zA-Z0-9_]*\b', replace_identifier, text)`
(lines 854-861), fuelled scan.  A maximal `\w`-run is a match exactly when
its first character is a letter or underscore (the `\b` boundaries hold only
at the ends of maximal runs); matches are rewritten left to right with
`auto_obfuscate_word`, threading the mapping state. -/
def subIdentifiersF : Nat → GenState → Str → GenState × Str
  | 0, st, s => (st, s)
  | _ + 1, st, [] => (st, [])
  | Nat.succ f, st, c :: rest =>
    if isWordCh c then
      let run := (c :: rest).takeWhile isWordCh
      let rest' := (c :: rest).dropWhile isWordCh
      if c.isAlpha || c == '_' then
        let r1 := auto_obfuscate_word st run
        let r2 := subIdentifiersF f r1.2 rest'
        (r2.1, r1.1 ++ r2.2)
      else
        let r2 := subIdentifiersF f st rest'
        (r2.1, run ++ r2.2)
    else
      let r2 := subIdentifiersF f st rest
      (r2.1, c :: r2.2)

/-- `_action_obfuscate_identifiers` (lines 843-874), restricted to its text
and mapping effect (scroll position, highlighting and persistence are UI
collaborators). -/
def actionObfuscateIdentifiers (st : GenState) (s : Str) : GenState × Str :=
  subIdentifiersF s.length st s

/-- `get_default_known_words` (lines 163-204), the built-in minimal default
vocabulary, in source order. -/
def defaultKnownWords : List Str :=
  [lit "get", lit "set", lit "is", lit "has", lit "can", lit "should", lit "will", lit "did",
   lit "on", lit "off", lit "add", lit "remove", lit "create", lit "delete", lit "update",
   lit "find", lit "fetch", lit "load", lit "save", lit "send", lit "receive",
   lit "start", lit "stop", lit "init", lit "reset", lit "clear", lit "close", lit "open",
   lit "show", lit "hide", lit "toggle", lit "enable", lit "disable",
   lit "click", lit "change", lit "submit", lit "focus", lit "blur",
   lit "render", lit "mount", lit "unmount", lit "destroy",
   lit "push", lit "pop", lit "shift", lit "slice", lit "splice", lit "concat",
   lit "join", lit "split", lit "trim", lit "replace", lit "match", lit "test", lit "search",
   lit "parse", lit "stringify", lit "encode", lit "decode",
   lit "extend", lit "implement", lit "override",
   lit "data", lit "info", lit "list", lit "item", lit "items", lit "array", lit "object",
   lit "error", lit "success", lit "fail", lit "complete", lit "pending",
   lit "event", lit "handler", lit "listener", lit "callback",
   lit "request", lit "response", lit "status", lit "message",
   lit "id", lit "key", lit "value", lit "index", lit "length", lit "size", lit "count",
   lit "name", lit "type", lit "state", lit "config", lit "options",
   lit "result", lit "output", lit "input", lit "params", lit "args",
   lit "url", lit "path", lit "route", lit "query", lit "body", lit "header",
   lit "text", lit "font", lit "style", lit "display", lit "position",
   lit "component", lit "module", lit "service", lit "controller", lit "model", lit "view",
   lit "min", lit "max", lit "sum", lit "avg", lit "total", lit "current", lit "next", lit "prev",
   lit "first", lit "last", lit "before", lit "after",
   lit "timeout", lit "interval", lit "delay", lit "wait",
   lit "to", lit "from", lit "by", lit "with", lit "in", lit "out", lit "up", lit "down",
   lit "all", lit "any", lit "some", lit "none", lit "each", lit "every",
   lit "async", lit "sync", lit "Async", lit "Sync",
   lit "local", lit "global", lit "public", lit "private", lit "static",
   lit "true", lit "false", lit "null", lit "new", lit "this", lit "self",
   lit "if", lit "else", lit "for", lit "while", lit "do", lit "switch", lit "case",
   lit "try", lit "catch", lit "finally", lit "throw", lit "return",
   lit "function", lit "class", lit "const", lit "let", lit "var",
   lit "import", lit "export", lit "default", lit "require"]

/-- Python set-style merge: add the words of `ws` that are not yet present
(`all_words.update(words)`); membership is all the merged vocabulary is used
for. -/
def setUpdate (acc : List Str) (ws : List Str) : List Str :=
  ws.foldl (fun a w => if a.contains w then a else a ++ [w]) acc

/-- `load_all_known_words` (lines 134-161).  Each source file is `none` when
missing or unreadable/unparseable (the `try`/`except: pass` path) and
`some ws` when it parses to a word list.  The first component is the merged
vocabulary returned (falling back to `get_default_known_words()` when the
merge is empty); the second component is the contents of the user word file
after the call — the function only reads, so it is returned unchanged. -/
def load_all_known_words (w1 w2 w3 user : Option (List Str)) : List Str × Option (List Str) :=
  let merged := [w1, w2, w3, user].foldl
    (fun acc o => match o with
      | some ws => setUpdate acc ws
      | none => acc) []
  (if merged.isEmpty then defaultKnownWords else merged, user)

/-- A JSON value, as produced by `json.load`: `null`, booleans, numbers
(JSON numbers of the persisted store; the fractional part plays no role
here), strings, arrays, and objects. -/
inductive JsonLite where
  | jnull : JsonLite
  | jbool : Bool → JsonLite
  | jnum : Int → JsonLite
  | jstr : Str → JsonLite
  | jarr : List JsonLite → JsonLite
  | jobj : List (Str × JsonLite) → JsonLite

/-- Reads a JSON object all of whose values are strings as a mapping
table. -/
def objAsTable : List (Str × JsonLite) → Option Mappings
  | [] => some []
  | (k, JsonLite.jstr s) :: rest => (objAsTable rest).map (fun m => (k, s) :: m)
  | _ => none

/-- The well-formed-store view of a loaded JSON value: a mapping table
exactly when the value is an object of strings (the persisted mapping
format), `none` for every other JSON value. -/
def asTable : JsonLite → Option Mappings
  | JsonLite.jobj fields => objAsTable fields
  | _ => none

/-- `load_mappings` (lines 119-127).  The input is the state of the mappings
file: `none` when the file does not exist, `some (Except.error ())` when
reading or parsing raises (the `except` path), and `some (Except.ok v)`
when `json.load` succeeds with the JSON value `v` — which the function
returns verbatim, whether or not `v` is an object of strings.  The missing
and raising cases yield the empty dict `{}` (the empty JSON object). -/
def load_mappings : Option (Except Unit JsonLite) → JsonLite
  | none => JsonLite.jobj []
  | some (Except.error _) => JsonLite.jobj []
  | some (Except.ok v) => v

/-- `self.max_undo_levels` (line 97). -/
def maxUndoLevels : Nat := 20

/-- The engine state touched by `save_state`, `undo` and `obfuscate_all`:
the text buffer, the mapping table, `current_obfuscation_level`,
`is_obfuscating`, and the undo stack of (text, mappings-copy) snapshots. -/
structure EngineState where
  text : Str
  mappings : Mappings
  level : Nat
  isObfuscating : Bool
  stack : List (Str × Mappings)

/-- `save_state` (lines 369-377): append a `(text, dict(mappings))` snapshot;
if the stack then exceeds `max_undo_levels`, discard the oldest
(`pop(0)`). -/
def save_state (s : EngineState) : EngineState :=
  let st := s.stack ++ [(s.text, s.mappings)]
  { s with stack := if maxUndoLevels < st.length then st.drop 1 else st }

/-- `undo` (lines 379-401): no-op on an empty stack; otherwise pop the most
recent snapshot (`pop()` takes the last element) and restore the text buffer
and the mapping table from it.  The pipeline level is not touched. -/
def undo (s : EngineState) : EngineState :=
  match s.stack.getLast? with
  | none => s
  | some e => { s with text := e.1, mappings := e.2, stack := s.stack.dropLast }

/-- A mutating operation in the sense of the undo history: every one of them
(`obfuscate_word`, `auto_obfuscate_strings`, `obfuscate_all`,
`remove_all_comments`, `deobfuscate_word`, `deobfuscate_and_show`,
`clear_mappings`, `load_clipboard`) first calls `save_state` and then
rewrites the text and possibly the mapping table. -/
def mutatingOp (f : Str → Mappings → Str × Mappings) (s : EngineState) : EngineState :=
  let s1 := save_state s
  let r := f s1.text s1.mappings
  { s1 with text := r.1, mappings := r.2 }

/-- `OBFUSCATION_LEVELS` (lines 21-42): level number, name, action list. -/
def obfuscationLevels : List (Nat × Str × List Str) :=
  [(1, lit "BLUR", [lit "obfuscate_identifiers"]),
   (2, lit "STEALTH", [lit "remove_comments", lit "remove_empty_lines"]),
   (3, lit "PHANTOM", [lit "obfuscate_strings", lit "obfuscate_guids", lit "obfuscate_paths"]),
   (4, lit "SKELETON", [lit "remove_function_bodies"])]

/-- `max(self.OBFUSCATION_LEVELS.keys())` (line 772). -/
def maxLevel : Nat := (obfuscationLevels.map (fun e => e.1)).foldl Nat.max 0

/-- The level advance of `obfuscate_all` (lines 775-777): increment, and wrap
to 1 when the result exceeds the maximum level. -/
def advanceLevel (l : Nat) : Nat :=
  if maxLevel < l + 1 then 1 else l + 1

/-- `obfuscate_all` (lines 765-797), with the active level's action list
abstracted as a function `run` of the level on (text, mappings): reject when
already running; otherwise advance the level, snapshot (text, mappings) via
`save_state`, and apply the level's actions.  `is_obfuscating` is set for
the duration of the background work and cleared on completion
(`on_obfuscation_complete`), so it is `false` again in the resulting
state. -/
def obfuscate_all (run : Nat → Str → Mappings → Str × Mappings) (s : EngineState) : EngineState :=
  if s.isObfuscating then s
  else
    let lvl := advanceLevel s.level
    let s2 := save_state { s with level := lvl }
    let r := run lvl s2.text s2.mappings
    { s2 with text := r.1, mappings := r.2, isObfuscating := false }

/-- `deobfuscate_word(obfuscated_word)` (lines 1546-1578): find the first
mapping entry whose placeholder equals the clicked word; if one is found and
its original is nonempty (the `if original_word:` truthiness test treats an
empty original like no match), replace every occurrence of the placeholder
in the text with the original and delete that mapping entry; otherwise leave
text and table unchanged. -/
def deobfuscate_word (t : Str) (m : Mappings) (w : Str) : Str × Mappings :=
  match m.find? (fun e => e.2 == w) with
  | none => (t, m)
  | some e =>
    if e.1.isEmpty then (t, m)
    else (replaceAll t w e.1, m.filter (fun x => !(x.1 == e.1)))

-- Unfolding equations for `replA` (plain `rfl` consequences of the match).

theorem replA_nil (pat rep : Str) (f : Nat) : replA pat rep f [] = [] := by
  cases f <;> rfl

theorem replA_zero (pat rep : Str) (s : Str) : replA pat rep 0 s = s := by
  cases s <;> rfl

theorem replA_cons (pat rep : Str) (f : Nat) (c : Char) (rest : Str) :
    replA pat rep (f + 1) (c :: rest) =
      if pat.isPrefixOf (c :: rest) && !pat.isEmpty then
        rep ++ replA pat rep f ((c :: rest).drop pat.length)
      else
        c :: replA pat rep f rest := rfl

theorem isPrefixOf_append_self (pat v : Str) : pat.isPrefixOf (pat ++ v) = true := by
  induction pat with
  | nil => simp [List.isPrefixOf]
  | cons a as ih => simp [List.isPrefixOf, ih]

theorem length_le_of_isPrefixOf {pat s : Str} (h : pat.isPrefixOf s = true) :
    pat.length ≤ s.length := by
  induction pat generalizing s with
  | nil => exact Nat.zero_le _
  | cons a as ih =>
    cases s with
    | nil => simp [List.isPrefixOf] at h
    | cons b bs =>
      simp only [List.isPrefixOf, Bool.and_eq_true] at h
      simpa [List.length_cons] using Nat.succ_le_succ (ih h.2)

/-- Fuel irrelevance: any fuel at least the length of the text gives the same
result, so `replaceAll` really is the unbounded single pass. -/
theorem replA_fuel_irrel (pat rep : Str) :
    ∀ f g s, s.length ≤ f → s.length ≤ g → replA pat rep f s = replA pat rep g s := by
  intro f
  induction f with
  | zero =>
    intro g s hf _
    have : s = [] := List.eq_nil_of_length_eq_zero (Nat.le_antisymm hf (Nat.zero_le _))
    subst this
    simp [replA_nil, replA_zero]
  | succ f ih =>
    intro g s hf hg
    cases s with
    | nil => simp [replA_nil]
    | cons c rest =>
      cases g with
      | zero => simp [List.length_cons] at hg
      | succ g =>
        rw [replA_cons, replA_cons]
        by_cases hcond : (pat.isPrefixOf (c :: rest) && !pat.isEmpty) = true
        · rw [if_pos hcond, if_pos hcond]
          have hpat : 1 ≤ pat.length := by
            rcases Bool.and_eq_true .. |>.mp hcond with ⟨_, hne⟩
            cases pat with
            | nil => simp at hne
            | cons _ _ => simp
          have hlen : ((c :: rest).drop pat.length).length ≤ f := by
            simp only [List.length_drop]
            have := List.length_cons c rest ▸ hf
            omega
          have hlen' : ((c :: rest).drop pat.length).length ≤ g := by
            simp only [List.length_drop]
            have := List.length_cons c rest ▸ hg
            omega
          rw [ih g _ hlen hlen']
        · rw [if_neg hcond, if_neg hcond]
          have h1 : rest.length ≤ f := by
            have := List.length_cons c rest ▸ hf; omega
          have h2 : rest.length ≤ g := by
            have := List.length_cons c rest ▸ hg; omega
          rw [ih g rest h1 h2]

theorem hasSubstr_cons (c : Char) (t : Str) (pat : Str) :
    hasSubstr (c :: t) pat = (pat.isPrefixOf (c :: t) || hasSubstr t pat) := rfl

/-- If the pattern does not occur in the text, the pass changes nothing. -/
theorem replA_of_not_hasSubstr (pat rep : Str) :
    ∀ f s, hasSubstr s pat = false → replA pat rep f s = s := by
  intro f
  induction f with
  | zero =>
    intro s _
    exact replA_zero pat rep s
  | succ f ih =>
    intro s hno
    cases s with
    | nil => exact replA_nil ..
    | cons c rest =>
      rw [hasSubstr_cons] at hno
      simp only [Bool.or_eq_false_iff] at hno
      have hcf : (pat.isPrefixOf (c :: rest) && !pat.isEmpty) = false := by
        rw [hno.1]; rfl
      rw [replA_cons, if_neg (ne_true_of_eq_false hcf), ih rest hno.2]

/-- The pass replaces the first occurrence and continues after it: if the
pattern occurs at position `u.length` and at no earlier position, the text
up to there is copied, the occurrence is replaced, and the pass continues on
the remainder only (the single-pass, non-recursive behaviour of
`str.replace`). -/
theorem replA_first_occurrence (pat rep : Str) (hp : pat ≠ []) :
    ∀ u v f, (u ++ pat ++ v).length ≤ f →
      (∀ i, i < u.length → pat.isPrefixOf ((u ++ pat ++ v).drop i) = false) →
      replA pat rep f (u ++ pat ++ v) = u ++ rep ++ replA pat rep v.length v := by
  intro u
  induction u with
  | nil =>
    intro v f hf _
    cases pat with
    | nil => exact absurd rfl hp
    | cons p ps =>
      simp only [List.nil_append] at hf ⊢
      cases f with
      | zero => simp [List.length_append, List.length_cons] at hf
      | succ f =>
        rw [show ((p :: ps) ++ v : Str) = p :: (ps ++ v) from rfl, replA_cons]
        have h1 : (p :: ps).isPrefixOf (p :: (ps ++ v)) = true := by
          have := isPrefixOf_append_self (p :: ps) v
          simpa using this
        have hcond : ((p :: ps).isPrefixOf (p :: (ps ++ v)) && !(p :: ps).isEmpty) = true := by
          rw [h1]; rfl
        rw [if_pos hcond]
        have hdrop : ((p :: (ps ++ v)).drop (p :: ps).length) = v := by
          have := List.drop_left (p :: ps) v
          simpa using this
        rw [hdrop]
        have hvf : v.length ≤ f := by
          simp [List.length_append, List.length_cons] at hf
          omega
        rw [replA_fuel_irrel (p :: ps) rep f v.length v hvf (Nat.le_refl _)]
  | cons c u ih =>
    intro v f hf hfirst
    cases f with
    | zero => simp [List.length_append, List.length_cons] at hf
    | succ f =>
      rw [show ((c :: u) ++ pat ++ v : Str) = c :: (u ++ pat ++ v) from rfl, replA_cons]
      have h0 : pat.isPrefixOf (c :: (u ++ pat ++ v)) = false := by
        have := hfirst 0 (by simp [List.length_cons])
        simpa using this
      have hcf : (pat.isPrefixOf (c :: (u ++ pat ++ v)) && !pat.isEmpty) = false := by
        rw [h0]; rfl
      rw [if_neg (ne_true_of_eq_false hcf)]
      have hfu : (u ++ pat ++ v).length ≤ f := by
        simp [List.length_append, List.length_cons] at hf ⊢
        omega
      have hfirst' : ∀ i, i < u.length →
          pat.isPrefixOf ((u ++ pat ++ v).drop i) = false := by
        intro i hi
        have := hfirst (i + 1) (by simp [List.length_cons]; omega)
        simpa using this
      rw [ih v f hfu hfirst']
      rfl

/-!
Claim C1.  The per-entry pass of `reverseAll` is proved correct (entries are
processed in table order; each pass replaces the leftmost occurrence and
continues after it without rescanning the inserted original, and a text
without the placeholder is left unchanged).  The claimed independence of the
processing order is false: `ID001` occurs inside `GUID001`, both being
placeholders the program generates, and the counterexample below exhibits two
orders with different results.
-/

/-- C1 (amended): for every mapping table and text, `reverseAll` processes
the entries in table order; for each entry it performs one single
left-to-right pass replacing every occurrence of the entry's placeholder
with its original, independent of category and non-recursively (a leftmost
occurrence is replaced and scanning continues after it; inserted text is
never rescanned), and an entry whose placeholder does not occur leaves the
text unchanged. -/
theorem c1_reverseAll_per_entry :
    (∀ (e : Str × Str) (ms : Mappings) (t : Str),
      reverseAll (e :: ms) t = reverseAll ms (replaceAll t e.2 e.1)) ∧
    (∀ pat rep u v : Str, pat ≠ [] →
      (∀ i, i < u.length → pat.isPrefixOf ((u ++ pat ++ v).drop i) = false) →
      replaceAll (u ++ pat ++ v) pat rep = u ++ rep ++ replaceAll v pat rep) ∧
    (∀ pat rep s : Str, hasSubstr s pat = false → replaceAll s pat rep = s) := by
  refine ⟨fun e ms t => rfl, ?_, ?_⟩
  · intro pat rep u v hp hfirst
    have hne : pat.isEmpty = false := by
      cases pat with
      | nil => exact absurd rfl hp
      | cons _ _ => rfl
    rw [replaceAll, replaceAll, hne]
    simp only [Bool.false_eq_true, if_false]
    exact replA_first_occurrence pat rep hp u v (u ++ pat ++ v).length (Nat.le_refl _) hfirst
  · intro pat rep s hno
    have hne : pat.isEmpty = false := by
      cases pat with
      | nil =>
        exfalso
        cases s with
        | nil => simp [hasSubstr, List.isPrefixOf] at hno
        | cons c t => simp [hasSubstr_cons, List.isPrefixOf] at hno
      | cons _ _ => rfl
    rw [replaceAll, hne]
    simp only [Bool.false_eq_true, if_false]
    exact replA_of_not_hasSubstr pat rep s.length s hno

/-- C1 counterexample: the placeholder `ID001` is a substring of the
placeholder `GUID001` (refuting "no placeholder contains another placeholder
as a substring"), and on the table {foo ↦ ID001, bar ↦ GUID001} and text
`GUID001` the two processing orders of `reverseAll` give different results
(`GUfoo` versus `bar`), refuting order independence. -/
theorem c1_counterexample :
    hasSubstr (lit "GUID001") (lit "ID001") = true ∧
    reverseAll [(lit "foo", lit "ID001"), (lit "bar", lit "GUID001")] (lit "GUID001")
      = lit "GUfoo" ∧
    reverseAll [(lit "bar", lit "GUID001"), (lit "foo", lit "ID001")] (lit "GUID001")
      = lit "bar" ∧
    reverseAll [(lit "foo", lit "ID001"), (lit "bar", lit "GUID001")] (lit "GUID001")
      ≠ reverseAll [(lit "bar", lit "GUID001"), (lit "foo", lit "ID001")] (lit "GUID001") := by
  refine ⟨by decide, by decide, by decide, by decide⟩

/-- C1 witness: the per-entry pass theorem applied at concrete inputs. -/
theorem c1_witness :
    replaceAll (lit "A" ++ lit "ID001" ++ lit "BID001C") (lit "ID001") (lit "foo")
      = lit "A" ++ lit "foo" ++ replaceAll (lit "BID001C") (lit "ID001") (lit "foo") ∧
    replaceAll (lit "hello") (lit "ID001") (lit "foo") = lit "hello" :=
  ⟨c1_reverseAll_per_entry.2.1 (lit "ID001") (lit "foo") (lit "A") (lit "BID001C")
      (by decide) (by decide),
   c1_reverseAll_per_entry.2.2 (lit "ID001") (lit "foo") (lit "hello") (by decide)⟩

/-!
Claim C2.  The pipeline levels are claimed (both by the specification and by
the docstring of `obfuscate_all`, line 766: "each level is idempotent") to be
idempotent.  Level 1 (`BLUR`, action `obfuscate_identifiers`) is not: the
first pass maps `getUserId` to `getPERSON001Id` (category stream constantly
choosing `PERSON`), and the second pass splits `getPERSON001Id` into the
fragments `get`, `PERSON`, `001`, `Id`, where the bare fragment `PERSON`
carries no digits, so `is_obfuscated_identifier` does not recognise it (that
guard can in fact never fire on a fragment, because `split_camel_case`
always separates letters from digits), and it is re-obfuscated, giving
`getPERSON002001Id`.
-/

/-- C2: level 1 applied twice is not idempotent — starting from an empty
table and the default vocabulary, the first pass turns `getUserId` into
`getPERSON001Id` and the second pass turns that into `getPERSON002001Id`,
so running the level on its own output changes the text, contradicting the
claim (and the docstring of `obfuscate_all`). -/
theorem c2_level1_not_idempotent :
    (actionObfuscateIdentifiers (GenState.mk [] defaultKnownWords (fun _ => 0) 0)
        (lit "getUserId")).2 = lit "getPERSON001Id" ∧
    (actionObfuscateIdentifiers
        (actionObfuscateIdentifiers (GenState.mk [] defaultKnownWords (fun _ => 0) 0)
          (lit "getUserId")).1
        (actionObfuscateIdentifiers (GenState.mk [] defaultKnownWords (fun _ => 0) 0)
          (lit "getUserId")).2).2 = lit "getPERSON002001Id" ∧
    (actionObfuscateIdentifiers
        (actionObfuscateIdentifiers (GenState.mk [] defaultKnownWords (fun _ => 0) 0)
          (lit "getUserId")).1
        (actionObfuscateIdentifiers (GenState.mk [] defaultKnownWords (fun _ => 0) 0)
          (lit "getUserId")).2).2
      ≠ (actionObfuscateIdentifiers (GenState.mk [] defaultKnownWords (fun _ => 0) 0)
          (lit "getUserId")).2 := by
  refine ⟨by decide, by decide, by decide⟩

/-!
Claim C3.  Support lemmas about `foldl Nat.max` (the Python
`max(existing_nums)`) and about decimal digits (the Python `f"{n:03d}"` and
`int(num_part)`).
-/

theorem foldl_max_le_init (l : List Nat) : ∀ a, a ≤ l.foldl Nat.max a := by
  induction l with
  | nil => intro a; exact Nat.le_refl a
  | cons x xs ih =>
    intro a
    exact Nat.le_trans (Nat.le_max_left a x) (ih (Nat.max a x))

theorem le_foldl_max (l : List Nat) : ∀ a x, x ∈ l → x ≤ l.foldl Nat.max a := by
  induction l with
  | nil => intro a x hx; cases hx
  | cons y ys ih =>
    intro a x hx
    rcases List.mem_cons.mp hx with h | h
    · subst h
      exact Nat.le_trans (Nat.le_max_right a x) (foldl_max_le_init ys (Nat.max a x))
    · exact ih (Nat.max a y) x h

theorem foldl_max_mem (l : List Nat) : ∀ a, l.foldl Nat.max a = a ∨ l.foldl Nat.max a ∈ l := by
  induction l with
  | nil => intro a; exact Or.inl rfl
  | cons x xs ih =>
    intro a
    rcases ih (Nat.max a x) with h | h
    · have hchoice : Nat.max a x = a ∨ Nat.max a x = x := by
        rcases Nat.le_total a x with hle | hle
        · exact Or.inr (Nat.max_eq_right hle)
        · exact Or.inl (Nat.max_eq_left hle)
      rcases hchoice with hm | hm
      · exact Or.inl (by rw [List.foldl_cons, h, hm])
      · exact Or.inr (by rw [List.foldl_cons, h, hm]; exact List.mem_cons_self x xs)
    · exact Or.inr (List.mem_cons_of_mem x h)

theorem digitsRevF_lt10 : ∀ f n d, d ∈ digitsRevF f n → d < 10 := by
  intro f
  induction f with
  | zero => intro n d hd; cases hd
  | succ f ih =>
    intro n d hd
    rw [digitsRevF] at hd
    by_cases hn : n = 0
    · rw [if_pos hn] at hd; cases hd
    · rw [if_neg hn] at hd
      rcases List.mem_cons.mp hd with h | h
      · subst h; exact Nat.mod_lt n (by omega)
      · exact ih (n / 10) d h

theorem digitsToNat_append_digit (xs : Str) (c : Char) :
    digitsToNat (xs ++ [c]) = digitsToNat xs * 10 + (c.toNat - 48) := by
  simp [digitsToNat, List.foldl_append]

theorem digCh_toNat (d : Nat) (h : d < 10) : (digCh d).toNat = 48 + d := by
  interval_cases d <;> decide

theorem digCh_isDigit (d : Nat) (h : d < 10) : (digCh d).isDigit = true := by
  interval_cases d <;> decide

theorem digitsToNat_rev_digitsRevF :
    ∀ f n, n ≤ f → digitsToNat (((digitsRevF f n).map digCh).reverse) = n := by
  intro f
  induction f with
  | zero =>
    intro n hn
    have : n = 0 := Nat.le_antisymm hn (Nat.zero_le n)
    subst this
    rfl
  | succ f ih =>
    intro n hn
    by_cases hz : n = 0
    · subst hz; rfl
    · rw [digitsRevF, if_neg hz, List.map_cons, List.reverse_cons,
        digitsToNat_append_digit]
      have hdiv : n / 10 ≤ f := by
        have h1 : n / 10 < n := Nat.div_lt_self (by omega) (by omega)
        omega
      rw [ih (n / 10) hdiv, digCh_toNat (n % 10) (Nat.mod_lt n (by omega))]
      omega

theorem digitsToNat_natDigits (n : Nat) : digitsToNat (natDigits n) = n := by
  by_cases hz : n = 0
  · subst hz; rfl
  · rw [natDigits, if_neg hz]
    exact digitsToNat_rev_digitsRevF n n (Nat.le_refl n)

theorem natDigits_all_digit (n : Nat) : (natDigits n).all Char.isDigit = true := by
  by_cases hz : n = 0
  · subst hz; rfl
  · rw [natDigits, if_neg hz]
    rw [List.all_eq_true]
    intro c hc
    rw [List.mem_reverse, List.mem_map] at hc
    rcases hc with ⟨d, hd, rfl⟩
    exact digCh_isDigit d (digitsRevF_lt10 n n d hd)

theorem digitsToNat_cons_zero (xs : Str) :
    digitsToNat (digCh 0 :: xs) = digitsToNat xs := by
  have h0 : (digCh 0).toNat - 48 = 0 := by decide
  simp [digitsToNat, h0]

theorem digitsToNat_replicate_zeros (k : Nat) (xs : Str) :
    digitsToNat (List.replicate k (digCh 0) ++ xs) = digitsToNat xs := by
  induction k with
  | zero => rfl
  | succ k ih => rw [List.replicate_succ, List.cons_append, digitsToNat_cons_zero, ih]

theorem pad3_length (n : Nat) : 3 ≤ (pad3 n).length := by
  rw [pad3, List.length_append, List.length_replicate]
  omega

theorem pad3_all_digit (n : Nat) : (pad3 n).all Char.isDigit = true := by
  rw [pad3, List.all_append, Bool.and_eq_true]
  constructor
  · rw [List.all_eq_true]
    intro c hc
    rw [List.eq_of_mem_replicate hc]
    decide
  · exact natDigits_all_digit n

theorem digitsToNat_pad3 (n : Nat) : digitsToNat (pad3 n) = n := by
  rw [pad3, digitsToNat_replicate_zeros, digitsToNat_natDigits]

theorem catSuffixNum_self (cat : Str) (n : Nat) :
    catSuffixNum cat (cat ++ pad3 n) = some n := by
  have h1 : cat.isPrefixOf (cat ++ pad3 n) = true := isPrefixOf_append_self cat (pad3 n)
  have hl : cat.length < (cat ++ pad3 n).length := by
    rw [List.length_append]
    have := pad3_length n
    omega
  have h2 : decide (cat.length < (cat ++ pad3 n).length) = true := decide_eq_true hl
  rw [catSuffixNum, h1, h2]
  simp only [Bool.and_self, if_true, List.drop_left]
  rw [if_pos (pad3_all_digit n), digitsToNat_pad3]

/-- C3: registration is idempotent on already-mapped originals (the existing
placeholder is returned and the table is untouched); for a fresh original,
the placeholder is the picked category followed by the successor of the
greatest numeric suffix parsed from the existing placeholders with that
category prefix (1 when there are none), zero-padded to at least 3 digits
and parsing back to that number, and exactly the new entry is appended to
the table. -/
theorem c3_register_numbering (st : GenState) (w : Str) :
    (∀ v, lookupM st.mappings w = some v → registerWord st w = (v, st)) ∧
    (lookupM st.mappings w = none →
      ∃ n : Nat,
        (registerWord st w).1 = pickCategory (st.rand st.randK) ++ pad3 n ∧
        3 ≤ (pad3 n).length ∧
        (pad3 n).all Char.isDigit = true ∧
        digitsToNat (pad3 n) = n ∧
        catSuffixNum (pickCategory (st.rand st.randK)) (registerWord st w).1 = some n ∧
        (∀ v ∈ valuesM st.mappings, ∀ m,
          catSuffixNum (pickCategory (st.rand st.randK)) v = some m → m < n) ∧
        (n = 1 ∨ ∃ v ∈ valuesM st.mappings,
          catSuffixNum (pickCategory (st.rand st.randK)) v = some (n - 1)) ∧
        (registerWord st w).2.mappings
          = st.mappings ++ [(w, pickCategory (st.rand st.randK) ++ pad3 n)] ∧
        (registerWord st w).2.knownWords = st.knownWords) := by
  constructor
  · intro v hv
    rw [registerWord, hv]
  · intro hnone
    refine ⟨((valuesM st.mappings).filterMap
      (catSuffixNum (pickCategory (st.rand st.randK)))).foldl Nat.max 0 + 1, ?_⟩
    have hreg : registerWord st w =
        (pickCategory (st.rand st.randK) ++
          pad3 (((valuesM st.mappings).filterMap
            (catSuffixNum (pickCategory (st.rand st.randK)))).foldl Nat.max 0 + 1),
         { st with
            mappings := st.mappings ++
              [(w, pickCategory (st.rand st.randK) ++
                pad3 (((valuesM st.mappings).filterMap
                  (catSuffixNum (pickCategory (st.rand st.randK)))).foldl Nat.max 0 + 1))],
            randK := st.randK + 1 }) := by
      rw [registerWord, hnone, generate_ai_identifier, hnone]
    refine ⟨by rw [hreg], pad3_length _, pad3_all_digit _, digitsToNat_pad3 _,
      by rw [hreg]; exact catSuffixNum_self .., ?_, ?_, by rw [hreg], by rw [hreg]⟩
    · intro v hv m hm
      have hmem : m ∈ (valuesM st.mappings).filterMap
          (catSuffixNum (pickCategory (st.rand st.randK))) :=
        List.mem_filterMap.mpr ⟨v, hv, hm⟩
      have := le_foldl_max _ 0 m hmem
      omega
    · rcases foldl_max_mem ((valuesM st.mappings).filterMap
        (catSuffixNum (pickCategory (st.rand st.randK)))) 0 with h | h
      · exact Or.inl (by omega)
      · rcases List.mem_filterMap.mp h with ⟨v, hv, hsome⟩
        exact Or.inr ⟨v, hv, by simpa using hsome⟩

/-- C3 witness: registration applied to a mapped and to a fresh original. -/
theorem c3_witness :
    registerWord (GenState.mk [(lit "foo", lit "PERSON001")] [] (fun _ => 0) 0) (lit "foo")
      = (lit "PERSON001", GenState.mk [(lit "foo", lit "PERSON001")] [] (fun _ => 0) 0) ∧
    (∃ n : Nat,
      (registerWord (GenState.mk [(lit "User", lit "PERSON001")] [] (fun _ => 0) 0)
        (lit "bar")).1 = pickCategory 0 ++ pad3 n ∧
      3 ≤ (pad3 n).length ∧
      (pad3 n).all Char.isDigit = true ∧
      digitsToNat (pad3 n) = n ∧
      catSuffixNum (pickCategory 0)
        (registerWord (GenState.mk [(lit "User", lit "PERSON001")] [] (fun _ => 0) 0)
          (lit "bar")).1 = some n ∧
      (∀ v ∈ valuesM [(lit "User", lit "PERSON001")], ∀ m,
        catSuffixNum (pickCategory 0) v = some m → m < n) ∧
      (n = 1 ∨ ∃ v ∈ valuesM [(lit "User", lit "PERSON001")],
        catSuffixNum (pickCategory 0) v = some (n - 1)) ∧
      (registerWord (GenState.mk [(lit "User", lit "PERSON001")] [] (fun _ => 0) 0)
        (lit "bar")).2.mappings
        = [(lit "User", lit "PERSON001")] ++ [(lit "bar", pickCategory 0 ++ pad3 n)] ∧
      (registerWord (GenState.mk [(lit "User", lit "PERSON001")] [] (fun _ => 0) 0)
        (lit "bar")).2.knownWords = []) :=
  ⟨(c3_register_numbering (GenState.mk [(lit "foo", lit "PERSON001")] [] (fun _ => 0) 0)
      (lit "foo")).1 (lit "PERSON001") (by decide),
   (c3_register_numbering (GenState.mk [(lit "User", lit "PERSON001")] [] (fun _ => 0) 0)
      (lit "bar")).2 (by decide)⟩

/-!
Claim C4.  Level cycling of `obfuscate_all`: increment with wrap past
`maxLevel` back to 1.
-/

/-- C4: starting from level 0, the advances visit 1, 2, 3, 4 and the fifth
returns to 1; below the maximum level (which is 4) an advance increments by
exactly 1, and no number of advances from 0 ever reaches 5. -/
theorem c4_level_cycling :
    advanceLevel^[1] 0 = 1 ∧ advanceLevel^[2] 0 = 2 ∧ advanceLevel^[3] 0 = 3 ∧
    advanceLevel^[4] 0 = 4 ∧ advanceLevel^[5] 0 = 1 ∧
    maxLevel = 4 ∧
    (∀ l, l < maxLevel → advanceLevel l = l + 1) ∧
    (∀ n, advanceLevel^[n] 0 ≠ 5) := by
  have h4 : maxLevel = 4 := by decide
  refine ⟨by decide, by decide, by decide, by decide, by decide, h4, ?_, ?_⟩
  · intro l hl
    rw [advanceLevel, if_neg (by omega)]
  · have hb : ∀ n, advanceLevel^[n] 0 ≤ 4 := by
      intro n
      induction n with
      | zero => simp
      | succ n ih =>
        rw [Function.iterate_succ_apply', advanceLevel]
        split <;> omega
    intro n
    have := hb n
    omega

/-- C4 witness: the increment-by-one part applied at a concrete level, and
the never-5 part at a concrete advance count. -/
theorem c4_witness : advanceLevel 2 = 3 ∧ advanceLevel^[9] 0 ≠ 5 :=
  ⟨c4_level_cycling.2.2.2.2.2.2.1 2 (by decide),
   c4_level_cycling.2.2.2.2.2.2.2 9⟩

/-!
Claim C5.  Known-word preservation on `getUserId` with vocabulary
{get, id}: the segmentation is [get, User, Id], the fragments `get` and `Id`
are kept literally (`Id` by the case-insensitive check against `id`), and
only `User` is registered, under any `random.choice` outcome for the
category.
-/

/-- C5: with vocabulary {get, id} and an empty table, `split_camel_case`
splits `getUserId` into [get, User, Id], and `auto_obfuscate_word` maps it
to `get` ++ placeholder ++ `Id` where the placeholder is the picked generic
category followed by `001`, adding exactly the mapping `User ↦` that
placeholder. -/
theorem c5_known_word_preservation (c : Nat) (hc : c < 7) :
    split_camel_case (lit "getUserId") = [lit "get", lit "User", lit "Id"] ∧
    (auto_obfuscate_word (GenState.mk [] [lit "get", lit "id"] (fun _ => c) 0)
        (lit "getUserId")).1
      = lit "get" ++ (genericCategories.getD c [] ++ lit "001") ++ lit "Id" ∧
    (auto_obfuscate_word (GenState.mk [] [lit "get", lit "id"] (fun _ => c) 0)
        (lit "getUserId")).2.mappings
      = [(lit "User", genericCategories.getD c [] ++ lit "001")] := by
  interval_cases c <;> exact ⟨by decide, by decide, by decide⟩

/-- C5 witness: the theorem at the category index 1 (category `ENTITY`,
giving the result `getENTITY001Id` of the specification's example). -/
theorem c5_witness :
    split_camel_case (lit "getUserId") = [lit "get", lit "User", lit "Id"] ∧
    (auto_obfuscate_word (GenState.mk [] [lit "get", lit "id"] (fun _ => 1) 0)
        (lit "getUserId")).1
      = lit "get" ++ (genericCategories.getD 1 [] ++ lit "001") ++ lit "Id" ∧
    (auto_obfuscate_word (GenState.mk [] [lit "get", lit "id"] (fun _ => 1) 0)
        (lit "getUserId")).2.mappings
      = [(lit "User", genericCategories.getD 1 [] ++ lit "001")] :=
  c5_known_word_preservation 1 (by decide)

/-!
Claim C6.  The undo stack is bounded at 20 with FIFO eviction.
-/

theorem save_state_stack_length (s : EngineState) (h : s.stack.length ≤ 20) :
    (save_state s).stack.length = min (s.stack.length + 1) 20 := by
  rw [save_state]
  simp only [maxUndoLevels]
  by_cases hc : 20 < (s.stack ++ [(s.text, s.mappings)]).length
  · rw [if_pos hc]
    rw [List.length_append, List.length_cons, List.length_nil] at hc
    rw [List.length_drop, List.length_append]
    simp only [List.length_cons, List.length_nil]
    omega
  · rw [if_neg hc]
    rw [List.length_append, List.length_cons, List.length_nil] at hc
    rw [List.length_append]
    simp only [List.length_cons, List.length_nil]
    omega

theorem foldl_mutatingOp_stack_length (fs : List (Str → Mappings → Str × Mappings)) :
    ∀ s : EngineState, s.stack.length ≤ 20 →
      (fs.foldl (fun s f => mutatingOp f s) s).stack.length
        = min (s.stack.length + fs.length) 20 := by
  induction fs with
  | nil =>
    intro s h
    simp only [List.foldl_nil, List.length_nil]
    omega
  | cons f fs ih =>
    intro s h
    rw [List.foldl_cons]
    have hstep : (mutatingOp f s).stack.length = min (s.stack.length + 1) 20 := by
      show (save_state s).stack.length = _
      exact save_state_stack_length s h
    rw [ih (mutatingOp f s) (by omega), hstep, List.length_cons]
    omega

theorem undo_of_empty_stack (s : EngineState) (h : s.stack = []) : undo s = s := by
  rw [undo, h]
  rfl

theorem undo_stack_of_ne_nil (s : EngineState) (h : s.stack ≠ []) :
    (undo s).stack = s.stack.dropLast := by
  have hlast : s.stack.getLast? = some (s.stack.getLast h) :=
    List.getLast?_eq_getLast s.stack h
  rw [undo, hlast]

theorem undo_iterate_length :
    ∀ k (s : EngineState), k ≤ s.stack.length →
      (undo^[k] s).stack.length = s.stack.length - k := by
  intro k
  induction k with
  | zero => intro s _; rfl
  | succ k ih =>
    intro s h
    have hne : s.stack ≠ [] := by
      intro hnil
      rw [hnil] at h
      simp at h
    rw [Function.iterate_succ_apply]
    have hu : (undo s).stack.length = s.stack.length - 1 := by
      rw [undo_stack_of_ne_nil s hne, List.length_dropLast]
    rw [ih (undo s) (by omega), hu]
    omega

/-- C6: starting from an empty undo stack, 25 mutating operations (each
pushes a snapshot via `save_state` before mutating) leave exactly 20
snapshots (the bound, with the oldest evicted); `k ≤ 20` undos leave
`20 - k` snapshots, so undo can be called exactly 20 times before the stack
is exhausted, and a further `undo` is a no-op. -/
theorem c6_undo_bound (fs : List (Str → Mappings → Str × Mappings)) (s0 : EngineState)
    (h0 : s0.stack = []) (hn : fs.length = 25) :
    (fs.foldl (fun s f => mutatingOp f s) s0).stack.length = 20 ∧
    (∀ k, k ≤ 20 → (undo^[k] (fs.foldl (fun s f => mutatingOp f s) s0)).stack.length = 20 - k) ∧
    (undo^[20] (fs.foldl (fun s f => mutatingOp f s) s0)).stack = [] ∧
    undo (undo^[20] (fs.foldl (fun s f => mutatingOp f s) s0))
      = undo^[20] (fs.foldl (fun s f => mutatingOp f s) s0) := by
  have hlen : (fs.foldl (fun s f => mutatingOp f s) s0).stack.length = 20 := by
    rw [foldl_mutatingOp_stack_length fs s0 (by rw [h0]; simp)]
    rw [h0, hn]
    simp
  have hiter : ∀ k, k ≤ 20 →
      (undo^[k] (fs.foldl (fun s f => mutatingOp f s) s0)).stack.length = 20 - k := by
    intro k hk
    rw [undo_iterate_length k _ (by rw [hlen]; omega), hlen]
  have hempty : (undo^[20] (fs.foldl (fun s f => mutatingOp f s) s0)).stack = [] := by
    have := hiter 20 (Nat.le_refl _)
    exact List.eq_nil_of_length_eq_zero (by omega)
  exact ⟨hlen, hiter, hempty, undo_of_empty_stack _ hempty⟩

/-- C6 witness: 25 identity mutations from a fresh state. -/
theorem c6_witness :
    ((List.replicate 25 (fun (t : Str) (m : Mappings) => (t, m))).foldl
      (fun s f => mutatingOp f s) (EngineState.mk [] [] 0 false [])).stack.length = 20 ∧
    (∀ k, k ≤ 20 →
      (undo^[k] ((List.replicate 25 (fun (t : Str) (m : Mappings) => (t, m))).foldl
        (fun s f => mutatingOp f s) (EngineState.mk [] [] 0 false []))).stack.length = 20 - k) ∧
    (undo^[20] ((List.replicate 25 (fun (t : Str) (m : Mappings) => (t, m))).foldl
      (fun s f => mutatingOp f s) (EngineState.mk [] [] 0 false []))).stack = [] ∧
    undo (undo^[20] ((List.replicate 25 (fun (t : Str) (m : Mappings) => (t, m))).foldl
      (fun s f => mutatingOp f s) (EngineState.mk [] [] 0 false [])))
      = undo^[20] ((List.replicate 25 (fun (t : Str) (m : Mappings) => (t, m))).foldl
        (fun s f => mutatingOp f s) (EngineState.mk [] [] 0 false [])) :=
  c6_undo_bound (List.replicate 25 (fun (t : Str) (m : Mappings) => (t, m)))
    (EngineState.mk [] [] 0 false []) rfl rfl

/-!
Claim C7.  Single-entry deobfuscation (`deobfuscate_word`).  The claim holds
for entries with a nonempty original; the `if original_word:` truthiness
test on line 1555 makes the operation a silent no-op when the matched
original is the empty string, which refutes the claim as stated (an entry
`"" ↦ ID001` is never removed and its occurrences are never replaced).
-/

/-- If the pattern does not occur in the text then `str.replace` leaves the
text unchanged (shared between the reversal claims). -/
theorem replaceAll_of_not_hasSubstr (s pat rep : Str) (hno : hasSubstr s pat = false) :
    replaceAll s pat rep = s := by
  have hne : pat.isEmpty = false := by
    cases pat with
    | nil =>
      exfalso
      cases s with
      | nil => simp [hasSubstr, List.isPrefixOf] at hno
      | cons c t => simp [hasSubstr_cons, List.isPrefixOf] at hno
    | cons _ _ => rfl
  rw [replaceAll, hne]
  simp only [Bool.false_eq_true, if_false]
  exact replA_of_not_hasSubstr pat rep s.length s hno

theorem filter_erase_key_length (m : Mappings) (a : Str × Str)
    (hnd : (m.map (fun e => e.1)).Nodup) (ha : a ∈ m) :
    (m.filter (fun x => !(x.1 == a.1))).length + 1 = m.length := by
  induction m with
  | nil => cases ha
  | cons e rest ih =>
    rw [List.map_cons, List.nodup_cons] at hnd
    rcases List.mem_cons.mp ha with heq | hmem
    · rw [heq] at ha ⊢
      rw [List.filter_cons_of_neg (by simp), List.length_cons]
      have hrest : rest.filter (fun x => !(x.1 == e.1)) = rest := by
        rw [List.filter_eq_self]
        intro x hx
        have hxne : x.1 ≠ e.1 := by
          intro hxe
          exact hnd.1 (hxe ▸ List.mem_map_of_mem (fun e => e.1) hx)
        simp [hxne]
      rw [hrest]
    · have hane : e.1 ≠ a.1 := by
        intro heq
        exact hnd.1 (heq ▸ List.mem_map_of_mem (fun e => e.1) hmem)
      rw [List.filter_cons_of_pos (by simp [hane]), List.length_cons, List.length_cons]
      rw [← ih hnd.2 hmem]

/-- C7 (amended): for every placeholder that has a mapping entry with a
nonempty original, `deobfuscate_word` replaces all occurrences of that
placeholder in the text with that original (leaving the text unchanged when
the placeholder does not occur), deletes exactly that one mapping entry, and
leaves every other mapping entry unchanged; if no entry has that
placeholder, the text and the mapping table are unchanged. -/
theorem c7_reverse_one (t : Str) (m : Mappings) (w : Str)
    (hnd : (m.map (fun e => e.1)).Nodup) :
    (m.find? (fun e => e.2 == w) = none → deobfuscate_word t m w = (t, m)) ∧
    ((∀ e ∈ m, e.2 ≠ w) → m.find? (fun e => e.2 == w) = none) ∧
    (∀ p, m.find? (fun e => e.2 == w) = some p → p.1 ≠ [] →
      p ∈ m ∧ p.2 = w ∧
      (deobfuscate_word t m w).1 = replaceAll t w p.1 ∧
      (hasSubstr t w = false → (deobfuscate_word t m w).1 = t) ∧
      p ∉ (deobfuscate_word t m w).2 ∧
      (∀ e ∈ m, e.1 ≠ p.1 → e ∈ (deobfuscate_word t m w).2) ∧
      (∀ e ∈ (deobfuscate_word t m w).2, e ∈ m ∧ e.1 ≠ p.1) ∧
      (deobfuscate_word t m w).2.length + 1 = m.length) := by
  refine ⟨?_, ?_, ?_⟩
  · intro hfind
    rw [deobfuscate_word, hfind]
  · intro hall
    cases hfind : m.find? (fun e => e.2 == w) with
    | none => rfl
    | some p =>
      exfalso
      have hp := List.find?_some hfind
      exact hall p (List.mem_of_find?_eq_some hfind) (by simpa using hp)
  · intro p hfind hne
    have hpmem : p ∈ m := List.mem_of_find?_eq_some hfind
    have hpw : p.2 = w := by
      have hp := List.find?_some hfind
      simpa using hp
    have hemp : p.1.isEmpty = false := by
      cases hp1 : p.1 with
      | nil => exact absurd hp1 hne
      | cons _ _ => rfl
    have hdef : deobfuscate_word t m w
        = (replaceAll t w p.1, m.filter (fun x => !(x.1 == p.1))) := by
      rw [deobfuscate_word, hfind]
      simp [hemp]
    refine ⟨hpmem, hpw, by rw [hdef], ?_, ?_, ?_, ?_, ?_⟩
    · intro hno
      rw [hdef]
      exact replaceAll_of_not_hasSubstr t w p.1 hno
    · rw [hdef]
      intro hmem
      have := (List.mem_filter.mp hmem).2
      simp at this
    · intro e hem hene
      rw [hdef]
      exact List.mem_filter.mpr ⟨hem, by simp [hene]⟩
    · intro e hem
      rw [hdef] at hem
      have h1 := (List.mem_filter.mp hem).1
      have h2 := (List.mem_filter.mp hem).2
      refine ⟨h1, ?_⟩
      intro heq
      simp [heq] at h2
    · rw [hdef]
      exact filter_erase_key_length m p hnd hpmem

/-- C7 counterexample: the table has an entry whose placeholder is `ID001`
(with empty original) and the text contains that placeholder, yet
`deobfuscate_word` leaves both the text and the table unchanged, because the
`if original_word:` truthiness test treats the empty original as "not
found" — contradicting the claim, which requires the occurrences to be
replaced and the entry deleted whenever the placeholder has an entry. -/
theorem c7_counterexample :
    (([], lit "ID001") : Str × Str) ∈ ([([], lit "ID001")] : Mappings) ∧
    hasSubstr (lit "ID001") (lit "ID001") = true ∧
    deobfuscate_word (lit "ID001") [([], lit "ID001")] (lit "ID001")
      = (lit "ID001", [([], lit "ID001")]) ∧
    ([([], lit "ID001")] : Mappings) ≠ [] :=
  ⟨by decide, by decide, by decide, by decide⟩

/-- C7 witness: the amended theorem applied to a concrete table, both for an
absent placeholder and for a present one. -/
theorem c7_witness :
    deobfuscate_word (lit "xID001y")
        [(lit "foo", lit "ID001"), (lit "bar", lit "ENTITY001")] (lit "NOPE")
      = (lit "xID001y", [(lit "foo", lit "ID001"), (lit "bar", lit "ENTITY001")]) ∧
    (deobfuscate_word (lit "xID001y")
        [(lit "foo", lit "ID001"), (lit "bar", lit "ENTITY001")] (lit "ID001")).1
      = replaceAll (lit "xID001y") (lit "ID001") (lit "foo") ∧
    (deobfuscate_word (lit "xID001y")
        [(lit "foo", lit "ID001"), (lit "bar", lit "ENTITY001")] (lit "ID001")).2.length + 1
      = ([(lit "foo", lit "ID001"), (lit "bar", lit "ENTITY001")] : Mappings).length :=
  ⟨(c7_reverse_one (lit "xID001y")
      [(lit "foo", lit "ID001"), (lit "bar", lit "ENTITY001")] (lit "NOPE")
      (by decide)).1 (by decide),
   ((c7_reverse_one (lit "xID001y")
      [(lit "foo", lit "ID001"), (lit "bar", lit "ENTITY001")] (lit "ID001")
      (by decide)).2.2 (lit "foo", lit "ID001") (by decide) (by decide)).2.2.1,
   ((c7_reverse_one (lit "xID001y")
      [(lit "foo", lit "ID001"), (lit "bar", lit "ENTITY001")] (lit "ID001")
      (by decide)).2.2 (lit "foo", lit "ID001") (by decide) (by decide)).2.2.2.2.2.2.2⟩

/-!
Claim C8.  Fallback to the built-in default vocabulary.  The fallback is
real; the claimed persistence is not: `load_all_known_words` performs no
write, so the user word list is left exactly as it was (in particular,
still missing).
-/

/-- C8 counterexample: with every vocabulary source missing, the merged
vocabulary is the built-in default, but the user word list after the call is
still missing — it is not initialised with the default contents as the
claim requires. -/
theorem c8_counterexample :
    (load_all_known_words none none none none).1 = defaultKnownWords ∧
    (load_all_known_words none none none none).2 = none ∧
    (none : Option (List Str)) ≠ some defaultKnownWords :=
  ⟨rfl, rfl, by simp⟩

/-- C8 (amended): when every vocabulary source (the three fixed word lists
and the user-customizable list) is empty or missing, loading the merged
vocabulary returns the built-in minimal default vocabulary; the default is
not persisted — the user word list is left unchanged. -/
theorem c8_default_vocabulary (w1 w2 w3 user : Option (List Str))
    (h1 : w1 = none ∨ w1 = some []) (h2 : w2 = none ∨ w2 = some [])
    (h3 : w3 = none ∨ w3 = some []) (hu : user = none ∨ user = some []) :
    (load_all_known_words w1 w2 w3 user).1 = defaultKnownWords ∧
    (load_all_known_words w1 w2 w3 user).2 = user := by
  rcases h1 with rfl | rfl <;> rcases h2 with rfl | rfl <;> rcases h3 with rfl | rfl <;>
    rcases hu with rfl | rfl <;> exact ⟨rfl, rfl⟩

/-- C8 witness: the amended theorem at a mixed empty/missing configuration. -/
theorem c8_witness :
    (load_all_known_words none (some []) none (some [])).1 = defaultKnownWords ∧
    (load_all_known_words none (some []) none (some [])).2 = some [] :=
  c8_default_vocabulary none (some []) none (some [])
    (Or.inl rfl) (Or.inr rfl) (Or.inl rfl) (Or.inr rfl)

/-!
Claim C9.  Loading the persisted mapping store recovers from a missing file
or a raising read/parse with the empty dict, and no error is surfaced.  The
claim as stated fails, however, on a store whose contents are valid JSON but
not a mapping table: `json.load` succeeds on e.g. `[1, 2, 3]` and the
function returns that list verbatim as `self.mappings` — not an empty
mapping table — so the corrupt/malformed-store case is not always recovered
with an empty table.
-/

/-- C9 counterexample: a store file whose contents parse to the JSON list
`[1, 2, 3]` (well-formed JSON, but corrupt as a mapping store) is returned
verbatim by `load_mappings`; the result is not a mapping table at all, and
in particular not the empty mapping table the claim requires. -/
theorem c9_counterexample :
    load_mappings (some (Except.ok
        (JsonLite.jarr [JsonLite.jnum 1, JsonLite.jnum 2, JsonLite.jnum 3])))
      = JsonLite.jarr [JsonLite.jnum 1, JsonLite.jnum 2, JsonLite.jnum 3] ∧
    asTable (load_mappings (some (Except.ok
        (JsonLite.jarr [JsonLite.jnum 1, JsonLite.jnum 2, JsonLite.jnum 3])))) = none ∧
    asTable (load_mappings (some (Except.ok
        (JsonLite.jarr [JsonLite.jnum 1, JsonLite.jnum 2, JsonLite.jnum 3]))))
      ≠ some ([] : Mappings) :=
  ⟨rfl, rfl, fun h => Option.noConfusion h⟩

/-- C9 (amended): loading the persisted mapping store when the store file is
missing, or when reading/parsing it raises, yields the empty mapping table
and surfaces no error to the caller (the model is a total function); a store
whose contents parse to any JSON value — a table or not — is returned
verbatim, not replaced by an empty table. -/
theorem c9_load_mappings_recovery :
    load_mappings none = JsonLite.jobj [] ∧
    asTable (load_mappings none) = some ([] : Mappings) ∧
    load_mappings (some (Except.error ())) = JsonLite.jobj [] ∧
    asTable (load_mappings (some (Except.error ()))) = some ([] : Mappings) ∧
    (∀ v : JsonLite, load_mappings (some (Except.ok v)) = v) :=
  ⟨rfl, rfl, rfl, rfl, fun _ => rfl⟩

/-!
Claim C10.  `undo` restores text and mappings from the most recent snapshot
but never touches `current_obfuscation_level`: snapshots hold only
(text, mappings).
-/

theorem save_state_getLast (s : EngineState) :
    (save_state s).stack.getLast? = some (s.text, s.mappings) := by
  rw [save_state]
  simp only [maxUndoLevels]
  by_cases hc : 20 < (s.stack ++ [(s.text, s.mappings)]).length
  · rw [if_pos hc]
    cases hstk : s.stack with
    | nil =>
      rw [hstk] at hc
      simp at hc
    | cons a as =>
      rw [List.cons_append, List.drop_one, List.tail_cons, List.getLast?_concat]
  · rw [if_neg hc, List.getLast?_concat]

theorem undo_level (s : EngineState) : (undo s).level = s.level := by
  rw [undo]
  cases s.stack.getLast? <;> rfl

theorem obfuscate_all_level (run : Nat → Str → Mappings → Str × Mappings)
    (s : EngineState) (h : s.isObfuscating = false) :
    (obfuscate_all run s).level = advanceLevel s.level := by
  rw [obfuscate_all, h]
  rfl

theorem obfuscate_all_isObfuscating (run : Nat → Str → Mappings → Str × Mappings)
    (s : EngineState) (h : s.isObfuscating = false) :
    (obfuscate_all run s).isObfuscating = false := by
  rw [obfuscate_all, h]
  rfl

theorem obfuscate_all_stack (run : Nat → Str → Mappings → Str × Mappings)
    (s : EngineState) (h : s.isObfuscating = false) :
    (obfuscate_all run s).stack = (save_state { s with level := advanceLevel s.level }).stack := by
  rw [obfuscate_all, h]
  rfl

/-- C10: `undo` never changes the pipeline level; after an advance
(`obfuscate_all`), `undo` restores the text and the mapping table to their
pre-advance values but keeps the advanced level, so the next advance
proceeds from the already-advanced level (two advances' worth from the
original level). -/
theorem c10_undo_level_frame (run runNext : Nat → Str → Mappings → Str × Mappings)
    (s : EngineState) (h : s.isObfuscating = false) :
    (undo s).level = s.level ∧
    (obfuscate_all run s).level = advanceLevel s.level ∧
    (undo (obfuscate_all run s)).level = advanceLevel s.level ∧
    (undo (obfuscate_all run s)).text = s.text ∧
    (undo (obfuscate_all run s)).mappings = s.mappings ∧
    (undo (obfuscate_all run s)).isObfuscating = false ∧
    (obfuscate_all runNext (undo (obfuscate_all run s))).level
      = advanceLevel (advanceLevel s.level) := by
  have hstack : (obfuscate_all run s).stack.getLast? = some (s.text, s.mappings) := by
    rw [obfuscate_all_stack run s h, save_state_getLast]
  have hundo : undo (obfuscate_all run s)
      = { obfuscate_all run s with
            text := s.text, mappings := s.mappings,
            stack := (obfuscate_all run s).stack.dropLast } := by
    rw [undo, hstack]
  refine ⟨undo_level s, obfuscate_all_level run s h, ?_, ?_, ?_, ?_, ?_⟩
  · rw [hundo]
    exact obfuscate_all_level run s h
  · rw [hundo]
  · rw [hundo]
  · rw [hundo]
    exact obfuscate_all_isObfuscating run s h
  · rw [obfuscate_all_level runNext (undo (obfuscate_all run s))
      (by rw [hundo]; exact obfuscate_all_isObfuscating run s h)]
    rw [hundo]
    rw [show ({ obfuscate_all run s with
          text := s.text, mappings := s.mappings,
          stack := (obfuscate_all run s).stack.dropLast } : EngineState).level
        = (obfuscate_all run s).level from rfl]
    rw [obfuscate_all_level run s h]

/-- C10 witness: the theorem at a concrete state and a concrete (identity)
level action. -/
theorem c10_witness :
    (undo (EngineState.mk (lit "hi") [] 0 false [])).level = 0 ∧
    (obfuscate_all (fun _ t m => (t, m)) (EngineState.mk (lit "hi") [] 0 false [])).level
      = advanceLevel 0 ∧
    (undo (obfuscate_all (fun _ t m => (t, m))
      (EngineState.mk (lit "hi") [] 0 false []))).level = advanceLevel 0 ∧
    (undo (obfuscate_all (fun _ t m => (t, m))
      (EngineState.mk (lit "hi") [] 0 false []))).text = lit "hi" ∧
    (undo (obfuscate_all (fun _ t m => (t, m))
      (EngineState.mk (lit "hi") [] 0 false []))).mappings = [] ∧
    (undo (obfuscate_all (fun _ t m => (t, m))
      (EngineState.mk (lit "hi") [] 0 false []))).isObfuscating = false ∧
    (obfuscate_all (fun _ t m => (t, m)) (undo (obfuscate_all (fun _ t m => (t, m))
      (EngineState.mk (lit "hi") [] 0 false [])))).level = advanceLevel (advanceLevel 0) :=
  c10_undo_level_frame (fun _ t m => (t, m)) (fun _ t m => (t, m))
    (EngineState.mk (lit "hi") [] 0 false []) rfl
